import Mathlib

/-!
Verification of the egawari terminal configuration utility.

This file gives a shallow embedding of the two core subsystems of the
program — the markup-to-terminal-attribute renderer (`src/stdout.rs`:
`color_str_escape`, `escaped_to_printw`) and the interactive field-editor
state machine (`src/config.rs`: `get_config`, `config_interactive`) — and
proves properties of them.  Strings are modelled as `List Char`; the
fancy-regex passes of `color_str_escape` are modelled by direct scanners
that implement the matching semantics of each fixed pattern; the curses
window is modelled as the grid surface of the design document: a bold
flag, an active color-pair index and the list of written text fragments.
-/

/-- The ANSI escape byte `\x1b` that introduces every style marker. -/
def escChar : Char := '\x1b'

/-- Style-reset marker `\x1b[1;39m` (bold, default color) appended by every
pass-1 rule of `color_str_escape` and by the delimiter replacements. -/
def escReset1 : List Char := ['\x1b', '[', '1', ';', '3', '9', 'm']

/-- Neutral in-span marker `\x1b[0;39m` used by the delimiter pass for the
interior of a span and for rewriting pass-1 resets inside a span. -/
def escReset0 : List Char := ['\x1b', '[', '0', ';', '3', '9', 'm']

/-- Style marker `\x1b[1;36m` (bold cyan), used for `+` runs and the `=>`
arrow exception. -/
def esc136 : List Char := ['\x1b', '[', '1', ';', '3', '6', 'm']

/-- Style marker `\x1b[1;32m` (bold green), used for `:/=` runs and for the
square/double-quote/angle delimiters. -/
def esc132 : List Char := ['\x1b', '[', '1', ';', '3', '2', 'm']

/-- Style marker `\x1b[0;32m` (green), used for `,-|` runs and for the
round-bracket/single-quote delimiters. -/
def esc032 : List Char := ['\x1b', '[', '0', ';', '3', '2', 'm']

/-- Style marker `\x1b[1;31m` (bold red), used for `*` runs. -/
def esc131 : List Char := ['\x1b', '[', '1', ';', '3', '1', 'm']

/-- Style marker `\x1b[1;35m` (bold magenta), used for brace runs. -/
def esc135 : List Char := ['\x1b', '[', '1', ';', '3', '5', 'm']

/-- Model of `str::replace("\x1b[1;39m", "\x1b[0;39m")` applied to the
interior of a delimiter span in `color_str_escape` (src/stdout.rs:63):
every occurrence of the pass-1 reset marker is rewritten to the span's
neutral color, scanning left to right without overlap. -/
def rewriteResets : List Char → List Char
  | a :: b :: c :: d :: e :: f :: g :: rest =>
    if [a, b, c, d, e, f, g] = escReset1 then escReset0 ++ rewriteResets rest
    else a :: rewriteResets (b :: c :: d :: e :: f :: g :: rest)
  | s => s

/-- Decides whether `pat` occurs as a contiguous substring of `s`. -/
def occurs (pat : List Char) : List Char → Bool
  | [] => pat.isEmpty
  | x :: xs => pat.isPrefixOf (x :: xs) || occurs pat xs

/-- Model of one maximal-run character-class rule of `color_str_escape`
(src/stdout.rs:34-38): each maximal run of characters of class `cls` is
wrapped in `style` and the reset marker, as `replace_all` with the greedy
pattern `[cls]+` and template `style${0}reset` does. -/
def charClassPass (cls : List Char) (style : List Char) : List Char → List Char
  | [] => []
  | x :: xs =>
    if x ∈ cls then
      style ++ (x :: xs.takeWhile (· ∈ cls)) ++ escReset1 ++
        charClassPass cls style (xs.dropWhile (· ∈ cls))
    else x :: charClassPass cls style xs
termination_by s => s.length
decreasing_by
  · simp only [List.length_cons]
    exact Nat.lt_succ_of_le (List.dropWhile_sublist _).length_le
  · simp

/-- Matcher for the arrow exception pattern
`\x1b\[\d*;\d+m=\x1b\[\d*;\d+m>` of `color_str_escape` (src/stdout.rs:41)
at the head of the input; returns the number of characters matched. -/
def matchArrow (s : List Char) : Option Nat :=
  match s with
  | '\x1b' :: '[' :: r =>
    let d1 := r.takeWhile Char.isDigit
    match r.dropWhile Char.isDigit with
    | ';' :: r2 =>
      let d2 := r2.takeWhile Char.isDigit
      if d2.isEmpty then none
      else
        match r2.dropWhile Char.isDigit with
        | 'm' :: '=' :: '\x1b' :: '[' :: r3 =>
          let d3 := r3.takeWhile Char.isDigit
          match r3.dropWhile Char.isDigit with
          | ';' :: r4 =>
            let d4 := r4.takeWhile Char.isDigit
            if d4.isEmpty then none
            else
              match r4.dropWhile Char.isDigit with
              | 'm' :: '>' :: _ =>
                some (d1.length + d2.length + d3.length + d4.length + 10)
              | _ => none
          | _ => none
        | _ => none
    | _ => none
  | _ => none

/-- Replacement text `\x1b[1;36m=>\x1b[1;39m` of the arrow exception. -/
def arrowReplacement : List Char := esc136 ++ ['=', '>'] ++ escReset1

/-- Model of the arrow exception rule of `color_str_escape`
(src/stdout.rs:41): `replace_all` of the arrow pattern, replacing every
match and scanning on after it. -/
def arrowPass : List Char → List Char
  | [] => []
  | x :: xs =>
    match matchArrow (x :: xs) with
    | some n => arrowReplacement ++ arrowPass (xs.drop (n - 1))
    | none => x :: arrowPass xs
termination_by s => s.length
decreasing_by
  · simp only [List.length_cons, List.length_drop]
    omega
  · simp

/-- Scanner for the lazy delimited-span body
`(?:(?=(\\?))\2.)*?([close])` of the delimiter patterns of
`color_str_escape` (src/stdout.rs:50-54), run on the text after an opening
delimiter.  At each position the engine first tries the closing delimiter;
otherwise one step of the lazy loop consumes a backslash plus the
following character (the atomic lookahead captures the backslash whenever
one is present) or else a single non-newline character (`.` does not match
a newline).  Returns `some k` where `k` is the length of the span
interior; the closer then sits at index `k`. -/
def scanClose (c : Char) : List Char → Option Nat
  | [] => none
  | x :: xs =>
    if x = c then some 0
    else if x = '\n' then none
    else if x = '\\' then
      match xs with
      | [] => none
      | y :: ys => if y = '\n' then none else (scanClose c ys).map (· + 2)
    else (scanClose c xs).map (· + 1)

/-- Model of one delimiter rule of `color_str_escape` (src/stdout.rs:49-65):
`replace_all` of the non-greedy span pattern for opener `o` and closer `c`,
replacing each matched span `o interior c` by
`style o \x1b[0;39m interior' style c \x1b[1;39m` where `interior'` is the
interior with pass-1 reset markers rewritten to the neutral color. -/
def surroundingPass (o c : Char) (style : List Char) : List Char → List Char
  | [] => []
  | x :: xs =>
    if x = o then
      match scanClose c xs with
      | some k =>
        style ++ o :: escReset0 ++ rewriteResets (xs.take k) ++
          style ++ c :: escReset1 ++ surroundingPass o c style (xs.drop (k + 1))
      | none => x :: surroundingPass o c style xs
    else x :: surroundingPass o c style xs
termination_by s => s.length
decreasing_by
  · simp only [List.length_cons, List.length_drop]
    omega
  · simp
  · simp

/-- The five delimiter rules of `color_str_escape` in source order
(src/stdout.rs:50-54): opener, closer and delimiter style. -/
def surroundingRules : List (Char × Char × List Char) :=
  [('[', ']', esc132), ('(', ')', esc032), ('"', '"', esc132),
   ('\'', '\'', esc032), ('<', '>', esc132)]

/-- Applies the five delimiter rules in order (src/stdout.rs:57-65). -/
def surroundingPasses (s : List Char) : List Char :=
  surroundingRules.foldl (fun acc r => surroundingPass r.1 r.2.1 r.2.2 acc) s

/-- The characters of the first escape-unwrapping class `[\[\]"<>]`
(src/stdout.rs:69). -/
def sqEscapeChars : List Char := ['[', ']', '"', '<', '>']

/-- The characters of the second escape-unwrapping class `[\(\)']`
(src/stdout.rs:70). -/
def rdEscapeChars : List Char := ['(', ')', '\'']

/-- Model of the first escape-unwrapping rule of `color_str_escape`
(src/stdout.rs:69): `replace_all` of `\\([\[\]"<>])`, replacing a
backslash followed by a class character with the styled bare character. -/
def surEscape1 : List Char → List Char
  | [] => []
  | [x] => [x]
  | x :: d :: rest =>
    if x = '\\' then
      if d ∈ sqEscapeChars then esc132 ++ d :: escReset1 ++ surEscape1 rest
      else '\\' :: surEscape1 (d :: rest)
    else x :: surEscape1 (d :: rest)

/-- Model of the second escape-unwrapping rule of `color_str_escape`
(src/stdout.rs:70): `replace_all` of `\\([\(\)'])`. -/
def surEscape2 : List Char → List Char
  | [] => []
  | [x] => [x]
  | x :: d :: rest =>
    if x = '\\' then
      if d ∈ rdEscapeChars then esc032 ++ d :: escReset1 ++ surEscape2 rest
      else '\\' :: surEscape2 (d :: rest)
    else x :: surEscape2 (d :: rest)

/-- The full `color_str_escape` pipeline (src/stdout.rs:28-79) on character
lists: the five character-class rules in order, the arrow exception, the
five delimiter rules, and the two escape-unwrapping rules. -/
def color_str_escape_core (s : List Char) : List Char :=
  surEscape2 (surEscape1 (surroundingPasses (arrowPass
    (charClassPass ['{', '}'] esc135
      (charClassPass ['*'] esc131
        (charClassPass [',', '-', '|'] esc032
          (charClassPass [':', '/', '='] esc132
            (charClassPass ['+'] esc136 s))))))))

/-- `color_str_escape` (src/stdout.rs:28): colors a string with ANSI escape
markers according to the fixed rule set. -/
def color_str_escape (s : String) : String :=
  String.mk (color_str_escape_core s.toList)

/-- Syntactic validity check modelling `Regex::new` succeeding on a
pattern of the dialect used by this program: groups `(...)`, `(?:...)`,
`(?=...)`, `(?<=...)` balanced, character classes closed, no dangling
escape, and every quantifier `* + ?` (with optional lazy `?`) attached to
a preceding atom.  State: open-group depth, inside-class flag, and whether
an atom immediately precedes. -/
def regexScan : Nat → Bool → Bool → List Char → Bool
  | depth, inClass, _, [] => depth = 0 && !inClass
  | depth, true, _, c :: rest =>
    if c = '\\' then
      match rest with
      | [] => false
      | _ :: r => regexScan depth true true r
    else if c = ']' then regexScan depth false true rest
    else regexScan depth true true rest
  | depth, false, prevAtom, c :: rest =>
    if c = '\\' then
      match rest with
      | [] => false
      | _ :: r => regexScan depth false true r
    else if c = '[' then regexScan depth true false rest
    else if c = '(' then
      match rest with
      | '?' :: ':' :: r => regexScan (depth + 1) false false r
      | '?' :: '=' :: r => regexScan (depth + 1) false false r
      | '?' :: '<' :: '=' :: r => regexScan (depth + 1) false false r
      | r => regexScan (depth + 1) false false r
    else if c = ')' then
      if depth = 0 then false else regexScan (depth - 1) false true rest
    else if c = '*' || c = '+' || c = '?' then
      if !prevAtom then false
      else
        match rest with
        | '?' :: r => regexScan depth false false r
        | r => regexScan depth false false r
    else regexScan depth false true rest

/-- A pattern compiles when the whole pattern scans validly. -/
def regexOk (p : List Char) : Bool := regexScan 0 false false p

/-- The thirteen fixed patterns compiled by `color_str_escape`
(src/stdout.rs:32-76), in source order. -/
def markupPatterns : List (List Char) :=
  [("[+]+").toList,
   ("[:/=]+").toList,
   ("[,\\-|]+").toList,
   ("[*]+").toList,
   ("[\x7b\x7d]+").toList,
   ("\x1b\\[\\d*;\\d+m=\x1b\\[\\d*;\\d+m>").toList,
   ("([\\[])(?:(?=(\\\\?))\\2.)*?([\\]])").toList,
   ("([\\(])(?:(?=(\\\\?))\\2.)*?([\\)])").toList,
   ("([\"])(?:(?=(\\\\?))\\2.)*?([\"])").toList,
   ("(['])(?:(?=(\\\\?))\\2.)*?(['])").toList,
   ("([<])(?:(?=(\\\\?))\\2.)*?([>])").toList,
   ("\\\\([\\[\\]\"<>])").toList,
   ("\\\\([\\(\\)'])").toList]

/-- `color_str_escape` with the per-call `Regex::new(...).unwrap()` steps
made explicit: each call first compiles the fixed patterns and would fail
(`none`) if any pattern were invalid, then runs the pipeline. -/
def color_str_escape_checked (s : String) : Option String :=
  if markupPatterns.all regexOk then some (color_str_escape s) else none

/-- The curses window surface as used by the attribute translator: a bold
attribute flag, the active color-pair index (`attron(ColorPair(n))`
modelled as selecting pair `n`, per the design's discrete `set-color`
surface operations), and the list of text fragments written by `printw`. -/
structure Window where
  bold : Bool
  colorPair : Nat
  out : List (List Char)
deriving DecidableEq, Repr

/-- Digit-string to number, as `str::parse` computes it. -/
def digitsToNat (s : List Char) : Nat :=
  s.foldl (fun a c => a * 10 + (c.toNat - 48)) 0

/-- Model of `str::parse::<u8>()`: fails on an empty string, on any
non-digit character, and on overflow past 255. -/
def parse_u8 (s : List Char) : Option Nat :=
  if s.isEmpty then none
  else if s.all Char.isDigit then
    if digitsToNat s ≤ 255 then some (digitsToNat s) else none
  else none

/-- Matcher for the code pattern `(?<=\[)\d*;\d+(?=m)` of
`escaped_to_printw` (src/stdout.rs:123) at the current position (the
lookbehind is checked by the caller): a greedy digit run, `;`, a nonempty
greedy digit run, and a following `m`.  Returns the two digit runs. -/
def matchCodeAt (s : List Char) : Option (List Char × List Char) :=
  let r1 := s.takeWhile Char.isDigit
  match s.dropWhile Char.isDigit with
  | ';' :: s2 =>
    let r2 := s2.takeWhile Char.isDigit
    if r2.isEmpty then none
    else
      match s2.dropWhile Char.isDigit with
      | 'm' :: _ => some (r1, r2)
      | _ => none
  | _ => none

/-- Leftmost match of the code pattern in a fragment: scans positions left
to right, requiring the preceding character to be `[`; returns the start
index and the two digit runs. -/
def findCodeAux (prev : Option Char) (i : Nat) : List Char → Option (Nat × List Char × List Char)
  | [] => none
  | x :: xs =>
    if prev = some '[' then
      match matchCodeAt (x :: xs) with
      | some (r1, r2) => some (i, r1, r2)
      | none => findCodeAux (some x) (i + 1) xs
    else findCodeAux (some x) (i + 1) xs

/-- `re.find` on a whole fragment (src/stdout.rs:125). -/
def findCode (s : List Char) : Option (Nat × List Char × List Char) :=
  findCodeAux none 0 s

/-- Processing of one fragment of the split input by `escaped_to_printw`
(src/stdout.rs:124-150): no code match writes the fragment verbatim; a
match starting past index 1 skips the fragment (`continue`); otherwise the
bold digit toggles bold, the color run with its first character dropped
selects a color pair when nonempty (panicking — `none` — if it does not
parse as `u8`), and the text after the code is written. -/
def processFragment (w : Window) (s : List Char) : Option Window :=
  match findCode s with
  | none => some { w with out := w.out ++ [s] }
  | some (start, r1, r2) =>
    if start > 1 then some w
    else
      let w1 : Window := if r1 = ['1'] then { w with bold := true } else { w with bold := false }
      let color := r2.drop 1
      let rest := s.drop (start + r1.length + r2.length + 2)
      if color.isEmpty then some { w1 with out := w1.out ++ [rest] }
      else
        match parse_u8 color with
        | none => none
        | some n => some { w1 with colorPair := n, out := w1.out ++ [rest] }

/-- `escaped.split("\x1b")` (src/stdout.rs:124): splits a character list on
the escape byte, keeping empty fragments, as Rust `str::split` does. -/
def splitEsc : List Char → List (List Char)
  | [] => [[]]
  | x :: xs =>
    let r := splitEsc xs
    if x = '\x1b' then [] :: r else (x :: r.headD []) :: r.tail

/-- `escaped_to_printw` (src/stdout.rs:119-154): sets color pair 9 and
bold on, processes every fragment of the input split on the escape byte,
and finally sets color pair 9 and bold off.  `none` models a panic. -/
def escaped_to_printw (w : Window) (escaped : List Char) : Option Window :=
  match (splitEsc escaped).foldl (fun acc s => acc.bind fun wi => processFragment wi s)
      (some { w with colorPair := 9, bold := true }) with
  | none => none
  | some wf => some { wf with colorPair := 9, bold := false }

/-- The `[input]` table of the configuration document (src/config.rs:58). -/
structure Input where
  name : String
deriving DecidableEq, Repr

/-- The optional `[display]` table of the configuration document
(src/config.rs:73). -/
structure Display where
  display : Option String
  screen : Nat
deriving DecidableEq, Repr

/-- The configuration document (src/config.rs:43). -/
structure Config where
  input : Input
  display : Option Display
deriving DecidableEq, Repr

/-- The platform-dependent default configuration built by `get_config`
when the config file cannot be read (src/config.rs:94-111). -/
def defaultConfig (os : String) : Config :=
  if os = "linux" then
    { input := { name := "" }, display := some { display := some ":0", screen := 0 } }
  else
    { input := { name := "" }, display := none }

/-- `get_config` (src/config.rs:86-116), with the file read (`readResult`,
`none` meaning the read failed) and the TOML parser passed explicitly: a
successful read hands the text to the parser, a failed read yields the
platform default document. -/
def get_config (os : String) (readResult : Option String)
    (parseToml : String → Except String Config) : Except String Config :=
  match readResult with
  | some s => parseToml s
  | none => .ok (defaultConfig os)

/-- The value carried by one config key of the interactive editor: a
trigger button, a string slot, or a bounded number slot
(src/config.rs:146-157). -/
inductive FieldVal where
  | button
  | str (s : String)
  | num (n : Nat)
deriving DecidableEq, Repr

/-- The key sections built by `config_interactive` from the loaded
document (src/config.rs:234-284): the Input section always, and the
Display section exactly when the document has a display group, with the
Display key present exactly when that group has a display string. -/
def buildSections (conf : Config) : List (String × List (String × FieldVal)) :=
  [("Input", [("Automatic Setup", FieldVal.button), ("Name", FieldVal.str conf.input.name)])] ++
  match conf.display with
  | some d =>
    [("Display",
      [("Automatic Setup", FieldVal.button)] ++
      (match d.display with
       | some dp => [("Display", FieldVal.str dp)]
       | none => []) ++
      [("Screen", FieldVal.num d.screen)])]
  | none => []

/-- Cursor position of the interactive editor (src/config.rs:219-222). -/
structure ConfigKeyLocation where
  sectionIdx : Nat
  key : Nat
deriving DecidableEq, Repr

/-- Number of keys of section `i` (`key_sections[i].keys.len()`). -/
def sectionLen (secs : List (List FieldVal)) (i : Nat) : Nat :=
  (secs.getD i []).length

/-- The KeyUp branch of `config_interactive` (src/config.rs:390-404):
from the first key of a section, move to the last key of the previous
section, wrapping from the first section to the last; otherwise move one
key up. -/
def moveUp (secs : List (List FieldVal)) (cur : ConfigKeyLocation) : ConfigKeyLocation :=
  if cur.key = 0 then
    { sectionIdx := if cur.sectionIdx = 0 then secs.length - 1 else cur.sectionIdx - 1,
      key := sectionLen secs
        (if cur.sectionIdx = 0 then secs.length - 1 else cur.sectionIdx - 1) - 1 }
  else { cur with key := cur.key - 1 }

/-- The KeyDown branch of `config_interactive` (src/config.rs:405-419):
from the last key of a section, move to the first key of the next
section, wrapping from the last section to the first; otherwise move one
key down. -/
def moveDown (secs : List (List FieldVal)) (cur : ConfigKeyLocation) : ConfigKeyLocation :=
  if cur.key = sectionLen secs cur.sectionIdx - 1 then
    { sectionIdx := if cur.sectionIdx = secs.length - 1 then 0 else cur.sectionIdx + 1,
      key := 0 }
  else { cur with key := cur.key + 1 }

/-- Total number of keys over all sections. -/
def numKeys (secs : List (List FieldVal)) : Nat := (secs.map List.length).sum

/-- Flat index of a cursor position in document order. -/
def toIdx (secs : List (List FieldVal)) (cur : ConfigKeyLocation) : Nat :=
  ((secs.take cur.sectionIdx).map List.length).sum + cur.key

/-- A cursor position that indexes an existing key. -/
def ValidLoc (secs : List (List FieldVal)) (cur : ConfigKeyLocation) : Prop :=
  cur.sectionIdx < secs.length ∧ cur.key < sectionLen secs cur.sectionIdx

instance (secs : List (List FieldVal)) (cur : ConfigKeyLocation) :
    Decidable (ValidLoc secs cur) := by
  unfold ValidLoc
  infer_instance

/-- The state of the `config_interactive` loop (src/config.rs:291-327):
the field values of the sections, the cursor, the edit flag, and the
shared edit buffer. -/
structure EditorState where
  secs : List (List FieldVal)
  cur : ConfigKeyLocation
  edit : Bool
  buf : List Char
deriving DecidableEq, Repr

/-- One key event as classified by the `getch` match arms
(src/config.rs:358-427). -/
inductive KeyInput where
  | keyEnter
  | keyUp
  | keyDown
  | keyBackspace
  | ch (c : Char)
  | other
deriving DecidableEq, Repr

/-- Outcome of one loop iteration: continue, or break out of the loop. -/
inductive StepOut where
  | next (st : EditorState)
  | done (st : EditorState)
deriving DecidableEq, Repr

/-- `&key_sections[cur.section].keys[cur.key]` (src/config.rs:329):
`none` models the out-of-bounds panic. -/
def lookupField (st : EditorState) : Option FieldVal :=
  match st.secs[st.cur.sectionIdx]? with
  | none => none
  | some keys => keys[st.cur.key]?

/-- Writes a value through the current key's pointer into the document. -/
def setField (st : EditorState) (v : FieldVal) : EditorState :=
  { st with
    secs := st.secs.set st.cur.sectionIdx
      ((st.secs.getD st.cur.sectionIdx []).set st.cur.key v) }

/-- The stringified current value used to seed the edit buffer
(src/config.rs:330-340). -/
def stringifyVal : FieldVal → List Char
  | .button => []
  | .str s => s.toList
  | .num n => (toString n).toList

/-- The Enter arm of `config_interactive` (src/config.rs:362-377): in
Navigate state the loop breaks; in Edit state a string slot takes the
buffer verbatim, a number slot takes the buffer's digit characters parsed
as `u8` — `unwrap` of a failed parse, like the missing pointer of a
button key, panics (`none`). -/
def stepEnter (st : EditorState) (cur_key : FieldVal) : Option StepOut :=
  if !st.edit then some (.done st)
  else
    match cur_key with
    | .button => none
    | .str _ => some (.next { setField st (.str (String.mk st.buf)) with edit := false })
    | .num _ =>
      match parse_u8 (st.buf.filter Char.isDigit) with
      | none => none
      | some n => some (.next { setField st (.num n) with edit := false })

/-- One iteration of the `config_interactive` event loop
(src/config.rs:328-442): the current key is read first (out of bounds
panics), then the key event is dispatched by the `getch` match arms in
source order.  Backspace pops the shared buffer and a printable character
is appended to it in both states; Up/Down move the cursor and Space
starts an edit (seeding the buffer from the current value) only in
Navigate state. -/
def step (st : EditorState) (k : KeyInput) : Option StepOut :=
  match lookupField st with
  | none => none
  | some cur_key =>
    match k with
    | .ch '\x1b' => some (.next { st with edit := false })
    | .keyEnter => stepEnter st cur_key
    | .ch '\n' => stepEnter st cur_key
    | .ch ' ' =>
      if !st.edit then
        match cur_key with
        | .button => some (.next st)
        | _ => some (.next { st with edit := true, buf := stringifyVal cur_key })
      else some (.next { st with buf := st.buf ++ [' '] })
    | .keyUp => some (.next (if !st.edit then { st with cur := moveUp st.secs st.cur } else st))
    | .keyDown => some (.next (if !st.edit then { st with cur := moveDown st.secs st.cur } else st))
    | .keyBackspace => some (.next { st with buf := st.buf.dropLast })
    | .ch '\x7f' => some (.next { st with buf := st.buf.dropLast })
    | .ch c => some (.next { st with buf := st.buf ++ [c] })
    | .other => some (.next st)

/-- A text with `parts.length` balanced, unescaped delimiter spans of one
kind: gap text, opener, interior, closer for each part, then a trailing
gap. -/
def spanJoin (o c : Char) (parts : List (List Char × List Char)) (tail : List Char) :
    List Char :=
  (parts.map (fun p => p.1 ++ o :: p.2 ++ [c])).flatten ++ tail

/-- The expected output of one delimiter rule on `spanJoin`: each opener
and closer styled with the delimiter style, each interior opened with the
neutral color and its pass-1 reset markers rewritten to the neutral
color. -/
def spanOut (o c : Char) (style : List Char) (parts : List (List Char × List Char))
    (tail : List Char) : List Char :=
  (parts.map (fun p =>
    p.1 ++ style ++ o :: escReset0 ++ rewriteResets p.2 ++ style ++
      c :: escReset1)).flatten ++ tail

/-! ## General lemmas about the attribute translator -/

/-- Buffer-only record updates do not change the current-key lookup. -/
theorem lookupField_buf (st : EditorState) (b : List Char) :
    lookupField { st with buf := b } = lookupField st := rfl

/-- C7: the markup renderer is deterministic and total: every call
compiles the same fixed pattern set successfully and returns the rendered
string; pattern compilation is a construction-time check that never fails,
so `color_str_escape` never fails per call. -/
theorem c7_renderer_total (s : String) :
    color_str_escape_checked s = some (color_str_escape s) := by
  unfold color_str_escape_checked
  rw [if_pos]
  decide

/-- C9: whenever `escaped_to_printw` completes, the window is left with
color pair 9 (the default pair) active and bold off, regardless of the
attribute codes contained in the input. -/
theorem c9_final_attributes (w : Window) (escaped : List Char) (w' : Window)
    (h : escaped_to_printw w escaped = some w') :
    w'.bold = false ∧ w'.colorPair = 9 := by
  unfold escaped_to_printw at h
  split at h
  · exact absurd h (by simp)
  · rw [Option.some_inj] at h
    subst h
    exact ⟨rfl, rfl⟩

/-- Witness for C9 at the empty input. -/
theorem c9_final_attributes_witness :
    escaped_to_printw ⟨false, 0, []⟩ [] = some ⟨false, 9, [[]]⟩ ∧
    (Window.mk false 9 [[]]).bold = false ∧ (Window.mk false 9 [[]]).colorPair = 9 :=
  ⟨rfl, c9_final_attributes ⟨false, 0, []⟩ [] ⟨false, 9, [[]]⟩ rfl⟩

/-- C3 counterexample: the fragment `xx[1;32mYY` has no leading code (its
code starts at index 3), so by the claim it must be written verbatim; the
translator instead skips it entirely (`continue`), writing nothing. -/
theorem c3_skipped_fragment_cex :
    (escaped_to_printw ⟨false, 0, []⟩ ("xx[1;32mYY".toList)).map Window.out = some [] ∧
    (some [] : Option (List (List Char))) ≠ some ["xx[1;32mYY".toList] := by
  exact ⟨rfl, by simp⟩

/-- C3 amended: a fragment in which the code pattern matches nowhere is
written verbatim with no attribute change; a fragment whose leftmost code
match starts past index 1 is skipped entirely — not written at all — also
with no attribute change. -/
theorem c3_fragment_handling (w : Window) (s : List Char) :
    (findCode s = none → processFragment w s = some { w with out := w.out ++ [s] }) ∧
    (∀ start r1 r2, findCode s = some (start, r1, r2) → 1 < start →
      processFragment w s = some w) := by
  constructor
  · intro h
    unfold processFragment
    rw [h]
  · intro start r1 r2 h hgt
    unfold processFragment
    rw [h]
    simp [hgt]

/-- Witness for C3 at a code-free fragment. -/
theorem c3_fragment_handling_witness :
    findCode ("hello".toList) = none ∧
    processFragment ⟨false, 9, []⟩ ("hello".toList) = some ⟨false, 9, ["hello".toList]⟩ := by
  refine ⟨rfl, ?_⟩
  have h := (c3_fragment_handling ⟨false, 9, []⟩ ("hello".toList)).1 rfl
  simpa using h

/-- C1: on a Number-field commit the buffer is filtered to its digits and
parsed as `u8`, so buffer `12a3` commits 123; but a buffer with no digits
makes the `unwrap` of the failed parse panic — the session crashes instead
of rejecting the edit and surfacing a recoverable error. -/
theorem c1_number_commit_behavior :
    step ⟨[[.num 7]], ⟨0, 0⟩, true, "12a3".toList⟩ .keyEnter =
      some (.next ⟨[[.num 123]], ⟨0, 0⟩, false, "12a3".toList⟩) ∧
    step ⟨[[.num 7]], ⟨0, 0⟩, true, [] ⟩ .keyEnter = none ∧
    step ⟨[[.num 7]], ⟨0, 0⟩, true, "abc".toList⟩ .keyEnter = none := by
  exact ⟨rfl, rfl, rfl⟩

/-- C8: an Edit-state Enter on a Number field whose buffer's digits form a
nonempty string denoting a value above 255 panics on the failed `u8` parse
(`none`), rather than rejecting or clamping. -/
theorem c8_overflow_commit_panics (st : EditorState) (n : Nat)
    (hedit : st.edit = true)
    (hf : lookupField st = some (.num n))
    (hne : st.buf.filter Char.isDigit ≠ [])
    (hbig : 255 < digitsToNat (st.buf.filter Char.isDigit)) :
    step st .keyEnter = none := by
  unfold step
  rw [hf]
  show stepEnter st (.num n) = none
  unfold stepEnter
  rw [hedit]
  have hall : (st.buf.filter Char.isDigit).all Char.isDigit = true := by
    simp only [List.all_eq_true]
    intro c hc
    exact (List.mem_filter.mp hc).2
  have hp : parse_u8 (st.buf.filter Char.isDigit) = none := by
    unfold parse_u8
    rw [if_neg (by simpa using hne), hall]
    simp only [if_true]
    rw [if_neg (by omega)]
  simp [hp]

/-- Witness for C8 at buffer `999`. -/
theorem c8_overflow_commit_panics_witness :
    lookupField ⟨[[.num 0]], ⟨0, 0⟩, true, "999".toList⟩ = some (.num 0) ∧
    255 < digitsToNat (("999".toList).filter Char.isDigit) ∧
    step ⟨[[.num 0]], ⟨0, 0⟩, true, "999".toList⟩ .keyEnter = none :=
  ⟨rfl, by decide,
    c8_overflow_commit_panics ⟨[[.num 0]], ⟨0, 0⟩, true, "999".toList⟩ 0 rfl rfl
      (by decide) (by decide)⟩

/-- C10: in Navigate state Backspace pops the shared edit buffer but
leaves the sections (all field values), the cursor and the edit flag
unchanged; and the buffer mutation is unobservable because entering Edit
state with Space re-seeds the buffer from the current field's stringified
value, so states differing only in the buffer step identically. -/
theorem c10_navigate_backspace (st : EditorState) (f : FieldVal)
    (hnav : st.edit = false) (hf : lookupField st = some f) :
    step st .keyBackspace = some (.next { st with buf := st.buf.dropLast }) ∧
    (f ≠ .button → ∀ b₁ b₂ : List Char,
      step { st with buf := b₁ } (.ch ' ') = step { st with buf := b₂ } (.ch ' ')) := by
  constructor
  · unfold step
    rw [hf]
  · intro hb b₁ b₂
    obtain ⟨secs, cur, edit, buf⟩ := st
    subst hnav
    have hf' : ∀ b : List Char, lookupField ⟨secs, cur, false, b⟩ = some f := fun _ => hf
    unfold step
    rw [hf' b₁, hf' b₂]
    cases f with
    | button => exact absurd rfl hb
    | str s => rfl
    | num n => rfl

/-- Witness for C10 on a one-field document. -/
theorem c10_navigate_backspace_witness :
    lookupField ⟨[[.str "ab"]], ⟨0, 0⟩, false, ['z']⟩ = some (.str "ab") ∧
    step ⟨[[.str "ab"]], ⟨0, 0⟩, false, ['z']⟩ .keyBackspace =
      some (.next ⟨[[.str "ab"]], ⟨0, 0⟩, false, []⟩) ∧
    step ⟨[[.str "ab"]], ⟨0, 0⟩, false, ['p']⟩ (.ch ' ') =
      step ⟨[[.str "ab"]], ⟨0, 0⟩, false, ['q']⟩ (.ch ' ') := by
  refine ⟨rfl, ?_, ?_⟩
  · have h := (c10_navigate_backspace ⟨[[.str "ab"]], ⟨0, 0⟩, false, ['z']⟩ (.str "ab")
      rfl rfl).1
    simpa using h
  · exact (c10_navigate_backspace ⟨[[.str "ab"]], ⟨0, 0⟩, false, ['p']⟩ (.str "ab")
      rfl rfl).2 (by simp) ['p'] ['q']

/-- C6: when the config file cannot be read, `get_config` returns `Ok`
with the platform default document: on linux an empty input name plus a
display group `:0`/screen 0, giving the editor an Input and a Display
section; on every other platform the display group is `none` and the
Display section — its fields included — does not exist at all. -/
theorem c6_default_document (os : String) (parseToml : String → Except String Config) :
    get_config os none parseToml = .ok (defaultConfig os) ∧
    buildSections (defaultConfig "linux") =
      [("Input", [("Automatic Setup", .button), ("Name", .str "")]),
       ("Display", [("Automatic Setup", .button), ("Display", .str ":0"),
                    ("Screen", .num 0)])] ∧
    (os ≠ "linux" →
      (defaultConfig os).display = none ∧
      buildSections (defaultConfig os) =
        [("Input", [("Automatic Setup", .button), ("Name", .str "")])]) := by
  refine ⟨rfl, by decide, fun h => ?_⟩
  unfold defaultConfig
  rw [if_neg h]
  exact ⟨rfl, rfl⟩

/-- Witness for C6 on a non-linux platform. -/
theorem c6_default_document_witness :
    get_config "windows" none (fun _ => .error "x") = .ok (defaultConfig "windows") ∧
    (defaultConfig "windows").display = none ∧
    buildSections (defaultConfig "windows") =
      [("Input", [("Automatic Setup", .button), ("Name", .str "")])] := by
  have h := c6_default_document "windows" (fun _ => .error "x")
  exact ⟨h.1, (h.2.2 (by decide)).1, (h.2.2 (by decide)).2⟩

/-! ## Cursor navigation: flat-index correspondence -/

/-- Prefix sums of section lengths extend by one section at a time. -/
theorem sum_take_succ_len (secs : List (List FieldVal)) (i : Nat) (h : i < secs.length) :
    ((secs.take (i + 1)).map List.length).sum =
      ((secs.take i).map List.length).sum + sectionLen secs i := by
  induction secs generalizing i with
  | nil => simp at h
  | cons s rest ih =>
    cases i with
    | zero => simp [sectionLen]
    | succ j =>
      simp only [List.take_succ_cons, List.map_cons, List.sum_cons]
      rw [ih j (by simpa using h)]
      simp only [sectionLen, List.getD_cons_succ]
      omega

/-- Every prefix sum of section lengths is bounded by the total. -/
theorem sum_take_le_numKeys (secs : List (List FieldVal)) (i : Nat) :
    ((secs.take i).map List.length).sum ≤ numKeys secs := by
  induction secs generalizing i with
  | nil => simp [numKeys]
  | cons s rest ih =>
    cases i with
    | zero => simp [numKeys]
    | succ j =>
      simp only [List.take_succ_cons, List.map_cons, List.sum_cons, numKeys]
      exact Nat.add_le_add_left (ih j) _

/-- Prefix sums of section lengths are monotone in the index. -/
theorem sum_take_mono (secs : List (List FieldVal)) (i j : Nat) (h : i ≤ j) :
    ((secs.take i).map List.length).sum ≤ ((secs.take j).map List.length).sum := by
  induction secs generalizing i j with
  | nil => simp
  | cons s rest ih =>
    cases i with
    | zero => simp
    | succ i' =>
      cases j with
      | zero => omega
      | succ j' =>
        simp only [List.take_succ_cons, List.map_cons, List.sum_cons]
        exact Nat.add_le_add_left (ih i' j' (by omega)) _

/-- In a document all of whose sections are nonempty, every section in
range has at least one key. -/
theorem sectionLen_pos (secs : List (List FieldVal)) (i : Nat)
    (hne : ∀ t ∈ secs, t ≠ []) (h : i < secs.length) : 0 < sectionLen secs i := by
  unfold sectionLen
  rw [List.getD_eq_getElem _ _ h]
  exact List.length_pos.mpr (hne _ (List.getElem_mem h))

/-- A valid cursor's flat index is below the total key count. -/
theorem toIdx_lt_numKeys (secs : List (List FieldVal)) (cur : ConfigKeyLocation)
    (hv : ValidLoc secs cur) : toIdx secs cur < numKeys secs := by
  obtain ⟨h1, h2⟩ := hv
  have hs := sum_take_succ_len secs cur.sectionIdx h1
  have hb := sum_take_le_numKeys secs (cur.sectionIdx + 1)
  unfold toIdx
  omega

/-- The whole-list prefix sum is the total key count. -/
theorem sum_take_length_eq (secs : List (List FieldVal)) :
    ((secs.take secs.length).map List.length).sum = numKeys secs := by
  rw [List.take_length]
  rfl

/-- `moveDown` advances the flat index by one, modulo the key count, and
preserves validity. -/
theorem moveDown_step (secs : List (List FieldVal)) (cur : ConfigKeyLocation)
    (hne : ∀ t ∈ secs, t ≠ []) (hv : ValidLoc secs cur) :
    ValidLoc secs (moveDown secs cur) ∧
    toIdx secs (moveDown secs cur) = (toIdx secs cur + 1) % numKeys secs := by
  obtain ⟨h1, h2⟩ := hv
  have hs := sum_take_succ_len secs cur.sectionIdx h1
  have htox : toIdx secs cur = ((secs.take cur.sectionIdx).map List.length).sum + cur.key := rfl
  unfold moveDown
  by_cases hk : cur.key = sectionLen secs cur.sectionIdx - 1
  · rw [if_pos hk]
    by_cases hj : cur.sectionIdx = secs.length - 1
    · rw [if_pos hj]
      have hlen : 0 < secs.length := by omega
      have hvnew : ValidLoc secs ⟨0, 0⟩ := ⟨hlen, sectionLen_pos secs 0 hne hlen⟩
      refine ⟨hvnew, ?_⟩
      have hjeq : cur.sectionIdx + 1 = secs.length := by omega
      rw [hjeq] at hs
      have hSlen := sum_take_length_eq secs
      have htot : toIdx secs cur + 1 = numKeys secs := by
        rw [htox]
        omega
      have ht0 : toIdx secs ⟨0, 0⟩ = 0 := by simp [toIdx]
      rw [ht0, htot, Nat.mod_self]
    · rw [if_neg hj]
      have hvnew : ValidLoc secs ⟨cur.sectionIdx + 1, 0⟩ :=
        ⟨(by omega : cur.sectionIdx + 1 < secs.length),
         sectionLen_pos secs (cur.sectionIdx + 1) hne
           (by omega : cur.sectionIdx + 1 < secs.length)⟩
      refine ⟨hvnew, ?_⟩
      have hlt := toIdx_lt_numKeys secs ⟨cur.sectionIdx + 1, 0⟩ hvnew
      have hnew : toIdx secs ⟨cur.sectionIdx + 1, 0⟩ =
          ((secs.take (cur.sectionIdx + 1)).map List.length).sum := by simp [toIdx]
      rw [hnew] at hlt ⊢
      rw [htox]
      rw [Nat.mod_eq_of_lt (by omega)]
      omega
  · rw [if_neg hk]
    have hvnew : ValidLoc secs ⟨cur.sectionIdx, cur.key + 1⟩ :=
      ⟨h1, (by omega : cur.key + 1 < sectionLen secs cur.sectionIdx)⟩
    refine ⟨hvnew, ?_⟩
    have hlt := toIdx_lt_numKeys secs ⟨cur.sectionIdx, cur.key + 1⟩ hvnew
    have hnew : toIdx secs ⟨cur.sectionIdx, cur.key + 1⟩ =
        ((secs.take cur.sectionIdx).map List.length).sum + (cur.key + 1) := rfl
    rw [hnew] at hlt ⊢
    rw [htox]
    rw [Nat.mod_eq_of_lt (by omega)]
    omega

/-- `moveUp` retreats the flat index by one (adds `numKeys - 1` modulo the
key count) and preserves validity. -/
theorem moveUp_step (secs : List (List FieldVal)) (cur : ConfigKeyLocation)
    (hne : ∀ t ∈ secs, t ≠ []) (hv : ValidLoc secs cur) :
    ValidLoc secs (moveUp secs cur) ∧
    toIdx secs (moveUp secs cur) =
      (toIdx secs cur + (numKeys secs - 1)) % numKeys secs := by
  obtain ⟨h1, h2⟩ := hv
  have hK := toIdx_lt_numKeys secs cur ⟨h1, h2⟩
  have htox : toIdx secs cur = ((secs.take cur.sectionIdx).map List.length).sum + cur.key := rfl
  rw [htox] at hK
  unfold moveUp
  by_cases hk : cur.key = 0
  · rw [if_pos hk]
    by_cases hj : cur.sectionIdx = 0
    · rw [if_pos hj]
      have hlen : 0 < secs.length := by omega
      have hlast : secs.length - 1 < secs.length := by omega
      have hpos := sectionLen_pos secs (secs.length - 1) hne hlast
      have hvnew : ValidLoc secs ⟨secs.length - 1, sectionLen secs (secs.length - 1) - 1⟩ :=
        ⟨hlast, (by omega :
          sectionLen secs (secs.length - 1) - 1 < sectionLen secs (secs.length - 1))⟩
      refine ⟨hvnew, ?_⟩
      have hs := sum_take_succ_len secs (secs.length - 1) hlast
      have heq : secs.length - 1 + 1 = secs.length := by omega
      rw [heq] at hs
      have hSlen := sum_take_length_eq secs
      have hnew : toIdx secs ⟨secs.length - 1, sectionLen secs (secs.length - 1) - 1⟩ =
          ((secs.take (secs.length - 1)).map List.length).sum +
            (sectionLen secs (secs.length - 1) - 1) := rfl
      have ht0 : ((secs.take 0).map List.length).sum = 0 := by simp
      rw [hnew, htox, hj, hk, ht0]
      rw [Nat.mod_eq_of_lt (by omega)]
      omega
    · rw [if_neg hj]
      have hjlt : cur.sectionIdx - 1 < secs.length := by omega
      have hpos := sectionLen_pos secs (cur.sectionIdx - 1) hne hjlt
      have hvnew : ValidLoc secs ⟨cur.sectionIdx - 1, sectionLen secs (cur.sectionIdx - 1) - 1⟩ :=
        ⟨hjlt, (by omega :
          sectionLen secs (cur.sectionIdx - 1) - 1 < sectionLen secs (cur.sectionIdx - 1))⟩
      refine ⟨hvnew, ?_⟩
      have hs := sum_take_succ_len secs (cur.sectionIdx - 1) hjlt
      have heq : cur.sectionIdx - 1 + 1 = cur.sectionIdx := by omega
      rw [heq] at hs
      have hble := sum_take_le_numKeys secs cur.sectionIdx
      have hnew : toIdx secs ⟨cur.sectionIdx - 1, sectionLen secs (cur.sectionIdx - 1) - 1⟩ =
          ((secs.take (cur.sectionIdx - 1)).map List.length).sum +
            (sectionLen secs (cur.sectionIdx - 1) - 1) := rfl
      rw [hnew, htox, hk]
      have harith : ((secs.take cur.sectionIdx).map List.length).sum + 0 + (numKeys secs - 1) =
          (((secs.take cur.sectionIdx).map List.length).sum - 1) + numKeys secs := by omega
      rw [harith, Nat.add_mod_right]
      rw [Nat.mod_eq_of_lt (by omega)]
      omega
  · rw [if_neg hk]
    have hvnew : ValidLoc secs ⟨cur.sectionIdx, cur.key - 1⟩ :=
      ⟨h1, (by omega : cur.key - 1 < sectionLen secs cur.sectionIdx)⟩
    refine ⟨hvnew, ?_⟩
    have hnew : toIdx secs ⟨cur.sectionIdx, cur.key - 1⟩ =
        ((secs.take cur.sectionIdx).map List.length).sum + (cur.key - 1) := rfl
    rw [hnew, htox]
    have harith : ((secs.take cur.sectionIdx).map List.length).sum + cur.key + (numKeys secs - 1) =
        (((secs.take cur.sectionIdx).map List.length).sum + (cur.key - 1)) + numKeys secs := by
      omega
    rw [harith, Nat.add_mod_right]
    rw [Nat.mod_eq_of_lt (by omega)]

/-- A cursor with a strictly smaller section index has a strictly smaller
flat index. -/
theorem toIdx_lt_of_sectionIdx_lt (secs : List (List FieldVal)) (p q : ConfigKeyLocation)
    (hp : ValidLoc secs p) (hq : ValidLoc secs q) (h : p.sectionIdx < q.sectionIdx) :
    toIdx secs p < toIdx secs q := by
  obtain ⟨hp1, hp2⟩ := hp
  have hs := sum_take_succ_len secs p.sectionIdx hp1
  have hmono := sum_take_mono secs (p.sectionIdx + 1) q.sectionIdx (by omega)
  unfold toIdx
  omega

/-- The flat index is injective on valid cursors. -/
theorem toIdx_inj (secs : List (List FieldVal)) (p q : ConfigKeyLocation)
    (hp : ValidLoc secs p) (hq : ValidLoc secs q)
    (h : toIdx secs p = toIdx secs q) : p = q := by
  rcases Nat.lt_trichotomy p.sectionIdx q.sectionIdx with hlt | heq | hgt
  · exact absurd h (Nat.ne_of_lt (toIdx_lt_of_sectionIdx_lt secs p q hp hq hlt))
  · have hkey : p.key = q.key := by
      have h1 : toIdx secs p = ((secs.take p.sectionIdx).map List.length).sum + p.key := rfl
      have h2 : toIdx secs q = ((secs.take q.sectionIdx).map List.length).sum + q.key := rfl
      rw [h1, h2, heq] at h
      omega
    cases p
    cases q
    simp only at heq hkey
    rw [heq, hkey]
  · exact absurd h.symm (Nat.ne_of_lt (toIdx_lt_of_sectionIdx_lt secs q p hq hp hgt))

/-- Iterating `moveDown` advances the flat index linearly modulo the key
count, staying valid. -/
theorem moveDown_iterate (secs : List (List FieldVal)) (hne : ∀ t ∈ secs, t ≠ [])
    (n : Nat) (cur : ConfigKeyLocation) (hv : ValidLoc secs cur) :
    ValidLoc secs ((moveDown secs)^[n] cur) ∧
    toIdx secs ((moveDown secs)^[n] cur) = (toIdx secs cur + n) % numKeys secs := by
  induction n with
  | zero =>
    exact ⟨hv, by simp [Nat.mod_eq_of_lt (toIdx_lt_numKeys secs cur hv)]⟩
  | succ n ih =>
    obtain ⟨ihv, ihx⟩ := ih
    rw [Function.iterate_succ_apply']
    obtain ⟨hv2, hx2⟩ := moveDown_step secs _ hne ihv
    refine ⟨hv2, ?_⟩
    rw [hx2, ihx, Nat.mod_add_mod, Nat.add_assoc]

/-- Iterating `moveUp` retreats the flat index linearly modulo the key
count, staying valid. -/
theorem moveUp_iterate (secs : List (List FieldVal)) (hne : ∀ t ∈ secs, t ≠ [])
    (n : Nat) (cur : ConfigKeyLocation) (hv : ValidLoc secs cur) :
    ValidLoc secs ((moveUp secs)^[n] cur) ∧
    toIdx secs ((moveUp secs)^[n] cur) =
      (toIdx secs cur + n * (numKeys secs - 1)) % numKeys secs := by
  induction n with
  | zero =>
    exact ⟨hv, by simp [Nat.mod_eq_of_lt (toIdx_lt_numKeys secs cur hv)]⟩
  | succ n ih =>
    obtain ⟨ihv, ihx⟩ := ih
    rw [Function.iterate_succ_apply']
    obtain ⟨hv2, hx2⟩ := moveUp_step secs _ hne ihv
    refine ⟨hv2, ?_⟩
    rw [hx2, ihx, Nat.mod_add_mod, Nat.succ_mul, ← Nat.add_assoc]

/-- C4: for every layout whose sections are all nonempty and every valid
cursor, pressing Down exactly `numKeys` times returns the cursor to its
start, and likewise for Up; moving up from the first field of the first
section wraps to the last field of the last section, and moving down from
there wraps back to the first field. -/
theorem c4_cursor_navigation_cyclic (secs : List (List FieldVal)) (cur : ConfigKeyLocation)
    (hne : ∀ t ∈ secs, t ≠ []) (hv : ValidLoc secs cur) :
    (moveDown secs)^[numKeys secs] cur = cur ∧
    (moveUp secs)^[numKeys secs] cur = cur ∧
    moveUp secs ⟨0, 0⟩ = ⟨secs.length - 1, sectionLen secs (secs.length - 1) - 1⟩ ∧
    moveDown secs ⟨secs.length - 1, sectionLen secs (secs.length - 1) - 1⟩ = ⟨0, 0⟩ := by
  have hKlt := toIdx_lt_numKeys secs cur hv
  refine ⟨?_, ?_, ?_, ?_⟩
  · obtain ⟨hv2, hx2⟩ := moveDown_iterate secs hne (numKeys secs) cur hv
    refine toIdx_inj secs _ cur hv2 hv ?_
    rw [hx2, Nat.add_mod_right, Nat.mod_eq_of_lt hKlt]
  · obtain ⟨hv2, hx2⟩ := moveUp_iterate secs hne (numKeys secs) cur hv
    refine toIdx_inj secs _ cur hv2 hv ?_
    rw [hx2, Nat.add_mul_mod_self_left, Nat.mod_eq_of_lt hKlt]
  · simp [moveUp]
  · simp [moveDown]

/-- Witness for C4 on a two-section layout with four keys. -/
theorem c4_cursor_navigation_cyclic_witness :
    (∀ t ∈ [[FieldVal.button, FieldVal.str ""], [FieldVal.button, FieldVal.num 0]], t ≠ []) ∧
    ValidLoc [[FieldVal.button, FieldVal.str ""], [FieldVal.button, FieldVal.num 0]] ⟨0, 1⟩ ∧
    (moveDown [[FieldVal.button, FieldVal.str ""], [FieldVal.button, FieldVal.num 0]])^[4]
      ⟨0, 1⟩ = ⟨0, 1⟩ ∧
    (moveUp [[FieldVal.button, FieldVal.str ""], [FieldVal.button, FieldVal.num 0]])^[4]
      ⟨0, 1⟩ = ⟨0, 1⟩ := by
  refine ⟨by decide, by decide, ?_, ?_⟩
  · exact (c4_cursor_navigation_cyclic _ ⟨0, 1⟩ (by decide) (by decide)).1
  · exact (c4_cursor_navigation_cyclic _ ⟨0, 1⟩ (by decide) (by decide)).2.1

/-! ## The delimiter pass on balanced spans -/

/-- Equation: the delimiter pass of the empty text. -/
theorem surroundingPass_nil (o c : Char) (st : List Char) :
    surroundingPass o c st [] = [] := by
  rw [surroundingPass]

/-- Equation: a character other than the opener is copied. -/
theorem surroundingPass_cons_ne (o c : Char) (st : List Char) (x : Char) (xs : List Char)
    (h : x ≠ o) :
    surroundingPass o c st (x :: xs) = x :: surroundingPass o c st xs := by
  rw [surroundingPass]
  simp [h]

/-- Equation: an opener whose scan finds a closer produces a styled span
and scanning resumes after the closer. -/
theorem surroundingPass_cons_match (o c : Char) (st : List Char) (xs : List Char) (k : Nat)
    (h : scanClose c xs = some k) :
    surroundingPass o c st (o :: xs) =
      st ++ o :: escReset0 ++ rewriteResets (xs.take k) ++
        st ++ c :: escReset1 ++ surroundingPass o c st (xs.drop (k + 1)) := by
  rw [surroundingPass]
  simp [h]

/-- Equation: an opener whose scan finds no closer is copied. -/
theorem surroundingPass_cons_nomatch (o c : Char) (st : List Char) (xs : List Char)
    (h : scanClose c xs = none) :
    surroundingPass o c st (o :: xs) = o :: surroundingPass o c st xs := by
  rw [surroundingPass]
  simp [h]

/-- The span scanner never closes when the closer does not occur. -/
theorem scanClose_none (c : Char) (l : List Char) (hc : c ∉ l) : scanClose c l = none := by
  match l with
  | [] => rfl
  | x :: xs =>
    simp only [List.mem_cons, not_or] at hc
    obtain ⟨h1, h2⟩ := hc
    rw [scanClose.eq_def]
    dsimp only
    rw [if_neg (fun h => h1 h.symm)]
    by_cases hn : x = '\n'
    · rw [if_pos hn]
    · rw [if_neg hn]
      by_cases hb : x = '\\'
      · rw [if_pos hb]
        cases xs with
        | nil => rfl
        | cons y ys =>
          simp only [List.mem_cons, not_or] at h2
          dsimp only
          by_cases hyn : y = '\n'
          · rw [if_pos hyn]
          · rw [if_neg hyn, scanClose_none c ys h2.2]
            rfl
      · rw [if_neg hb, scanClose_none c xs h2]
        rfl
termination_by l.length

/-- The span scanner finds the first closer after a clean interior: no
closer, no backslash and no newline inside. -/
theorem scanClose_spec (c : Char) (m rest : List Char)
    (hc : c ∉ m) (hb : ('\\' : Char) ∉ m) (hn : ('\n' : Char) ∉ m) :
    scanClose c (m ++ c :: rest) = some m.length := by
  induction m with
  | nil =>
    rw [List.nil_append, scanClose.eq_def]
    dsimp only
    rw [if_pos rfl]
    rfl
  | cons x xs ih =>
    simp only [List.mem_cons, not_or] at hc hb hn
    rw [List.cons_append, scanClose.eq_def]
    dsimp only
    rw [if_neg (fun h => hc.1 h.symm), if_neg (fun h => hn.1 h.symm),
      if_neg (fun h => hb.1 h.symm), ih hc.2 hb.2 hn.2]
    simp

/-- The delimiter pass copies an opener-free gap. -/
theorem surroundingPass_append_gap (o c : Char) (st : List Char) (t rest : List Char)
    (ht : o ∉ t) :
    surroundingPass o c st (t ++ rest) = t ++ surroundingPass o c st rest := by
  induction t with
  | nil => simp
  | cons x xs ih =>
    simp only [List.mem_cons, not_or] at ht
    rw [List.cons_append, surroundingPass_cons_ne o c st x _ (fun h => ht.1 h.symm),
      ih ht.2]
    rfl

/-- The delimiter pass is the identity on opener-free text. -/
theorem surroundingPass_id (o c : Char) (st : List Char) (s : List Char) (hs : o ∉ s) :
    surroundingPass o c st s = s := by
  have h := surroundingPass_append_gap o c st s [] hs
  rw [List.append_nil] at h
  rw [h, surroundingPass_nil, List.append_nil]

/-- Equation: the reset rewrite replaces a leading reset marker. -/
theorem rewriteResets_eq_match (a b c d e f g : Char) (rest : List Char)
    (h : [a, b, c, d, e, f, g] = escReset1) :
    rewriteResets (a :: b :: c :: d :: e :: f :: g :: rest) =
      escReset0 ++ rewriteResets rest := by
  rw [rewriteResets]
  simp [h]

/-- Equation: with no reset marker at the head, one character is copied. -/
theorem rewriteResets_eq_nomatch (a b c d e f g : Char) (rest : List Char)
    (h : [a, b, c, d, e, f, g] ≠ escReset1) :
    rewriteResets (a :: b :: c :: d :: e :: f :: g :: rest) =
      a :: rewriteResets (b :: c :: d :: e :: f :: g :: rest) := by
  rw [rewriteResets]
  simp [h]

/-- Text shorter than the reset marker is left unchanged. -/
theorem rewriteResets_short (s : List Char) (h : s.length < 7) : rewriteResets s = s := by
  match s with
  | [] => rfl
  | [a] => rfl
  | [a, b] => rfl
  | [a, b, c] => rfl
  | [a, b, c, d] => rfl
  | [a, b, c, d, e] => rfl
  | [a, b, c, d, e, f] => rfl
  | a :: b :: c :: d :: e :: f :: g :: rest =>
    exact absurd h (by simp)

/-- A prefix of the rewrite output that avoids the escape byte is already
a prefix of the input (the rewrite only ever emits the escape byte where
the input has one). -/
theorem rewriteResets_prefix_copy (t : List Char) (ht : ∀ a ∈ t, a ≠ '\x1b') :
    ∀ s : List Char, t <+: rewriteResets s → t <+: s := by
  induction t with
  | nil => intro s _; exact List.nil_prefix
  | cons a t' ih =>
    intro s h
    match s with
    | [] => exact h
    | [x0] => exact h
    | [x0, x1] => exact h
    | [x0, x1, x2] => exact h
    | [x0, x1, x2, x3] => exact h
    | [x0, x1, x2, x3, x4] => exact h
    | [x0, x1, x2, x3, x4, x5] => exact h
    | x0 :: x1 :: x2 :: x3 :: x4 :: x5 :: x6 :: rest =>
      by_cases hm : [x0, x1, x2, x3, x4, x5, x6] = escReset1
      · rw [rewriteResets_eq_match x0 x1 x2 x3 x4 x5 x6 rest hm] at h
        have ha : a = '\x1b' := by
          have hh : a :: t' <+:
              '\x1b' :: ('[' :: '0' :: ';' :: '3' :: '9' :: 'm' :: rewriteResets rest) := h
          rw [List.cons_prefix_cons] at hh
          exact hh.1
        exact absurd ha (ht a (List.mem_cons_self a t'))
      · rw [rewriteResets_eq_nomatch x0 x1 x2 x3 x4 x5 x6 rest hm] at h
        rw [List.cons_prefix_cons] at h ⊢
        exact ⟨h.1, ih (fun b hb => ht b (List.mem_cons_of_mem a hb)) _ h.2⟩

/-- No list shorter than the pattern contains it. -/
theorem isPrefixOf_false_of_short (t s : List Char) (h : s.length < t.length) :
    t.isPrefixOf s = false := by
  induction t generalizing s with
  | nil => simp at h
  | cons a t' ih =>
    cases s with
    | nil => rfl
    | cons b s' =>
      have hlt : s'.length < t'.length := by
        simp only [List.length_cons] at h
        omega
      simp [List.isPrefixOf, ih s' hlt]

/-- `occurs` is false on text shorter than the pattern. -/
theorem occurs_false_of_short (pat s : List Char) (h : s.length < pat.length) :
    occurs pat s = false := by
  induction s with
  | nil =>
    cases pat with
    | nil => simp at h
    | cons a as => rfl
  | cons x xs ih =>
    have hlt : xs.length < pat.length := by
      simp only [List.length_cons] at h
      omega
    rw [occurs, isPrefixOf_false_of_short pat (x :: xs) h, ih hlt]
    rfl

/-- Prepending the neutral marker does not create a reset-marker
occurrence. -/
theorem occurs_escReset0_append (r : List Char) (hr : occurs escReset1 r = false) :
    occurs escReset1 (escReset0 ++ r) = false := by
  simp [escReset0, escReset1, occurs, List.isPrefixOf, hr]
  simpa [escReset1] using hr

/-- The span-interior rewrite leaves no pass-1 reset marker behind: after
rewriting, the reset marker occurs nowhere in the result. -/
theorem rewriteResets_no_reset1 (s : List Char) :
    occurs escReset1 (rewriteResets s) = false := by
  match s with
  | [] => rfl
  | [x0] =>
    rw [rewriteResets_short _ (by simp)]
    exact occurs_false_of_short _ _ (by simp [escReset1])
  | [x0, x1] =>
    rw [rewriteResets_short _ (by simp)]
    exact occurs_false_of_short _ _ (by simp [escReset1])
  | [x0, x1, x2] =>
    rw [rewriteResets_short _ (by simp)]
    exact occurs_false_of_short _ _ (by simp [escReset1])
  | [x0, x1, x2, x3] =>
    rw [rewriteResets_short _ (by simp)]
    exact occurs_false_of_short _ _ (by simp [escReset1])
  | [x0, x1, x2, x3, x4] =>
    rw [rewriteResets_short _ (by simp)]
    exact occurs_false_of_short _ _ (by simp [escReset1])
  | [x0, x1, x2, x3, x4, x5] =>
    rw [rewriteResets_short _ (by simp)]
    exact occurs_false_of_short _ _ (by simp [escReset1])
  | x0 :: x1 :: x2 :: x3 :: x4 :: x5 :: x6 :: rest =>
    by_cases hm : [x0, x1, x2, x3, x4, x5, x6] = escReset1
    · rw [rewriteResets_eq_match x0 x1 x2 x3 x4 x5 x6 rest hm]
      exact occurs_escReset0_append _ (rewriteResets_no_reset1 rest)
    · rw [rewriteResets_eq_nomatch x0 x1 x2 x3 x4 x5 x6 rest hm]
      have hrest := rewriteResets_no_reset1 (x1 :: x2 :: x3 :: x4 :: x5 :: x6 :: rest)
      rw [occurs, hrest, Bool.or_false]
      cases hpre : escReset1.isPrefixOf
          (x0 :: rewriteResets (x1 :: x2 :: x3 :: x4 :: x5 :: x6 :: rest)) with
      | false => rfl
      | true =>
        exfalso
        rw [List.isPrefixOf_iff_prefix] at hpre
        have h1 : '\x1b' = x0 ∧
            (['[', '1', ';', '3', '9', 'm'] : List Char) <+:
              rewriteResets (x1 :: x2 :: x3 :: x4 :: x5 :: x6 :: rest) := by
          have hh : '\x1b' :: (['[', '1', ';', '3', '9', 'm'] : List Char) <+:
              x0 :: rewriteResets (x1 :: x2 :: x3 :: x4 :: x5 :: x6 :: rest) := hpre
          rwa [List.cons_prefix_cons] at hh
        have h2 := rewriteResets_prefix_copy ['[', '1', ';', '3', '9', 'm'] (by decide)
          (x1 :: x2 :: x3 :: x4 :: x5 :: x6 :: rest) h1.2
        have h3 : '[' = x1 ∧ '1' = x2 ∧ ';' = x3 ∧ '3' = x4 ∧ '9' = x5 ∧ 'm' = x6 := by
          simpa [List.cons_prefix_cons] using h2
        apply hm
        rw [← h1.1, ← h3.1, ← h3.2.1, ← h3.2.2.1, ← h3.2.2.2.1, ← h3.2.2.2.2.1,
          ← h3.2.2.2.2.2]
        rfl
termination_by s.length

/-- Taking the prefix length of an appended list recovers the prefix. -/
theorem take_append_cons (l : List Char) (a : Char) (r : List Char) :
    (l ++ a :: r).take l.length = l :=
  List.take_left l (a :: r)

/-- Dropping past the separator of an appended list recovers the tail. -/
theorem drop_append_cons (l : List Char) (a : Char) (r : List Char) :
    (l ++ a :: r).drop (l.length + 1) = r := by
  rw [show l ++ a :: r = (l ++ [a]) ++ r by simp]
  rw [show l.length + 1 = (l ++ [a]).length by simp]
  exact List.drop_left _ _

/-- The delimiter pass on balanced unescaped spans: each gap is copied,
each opener and closer is wrapped in the delimiter style, and each
interior is opened with the neutral color and has its reset markers
rewritten. -/
theorem surroundingPass_spans (o c : Char) (st : List Char)
    (parts : List (List Char × List Char)) (tail : List Char)
    (hparts : ∀ p ∈ parts, o ∉ p.1 ∧ c ∉ p.2 ∧ ('\\' : Char) ∉ p.2 ∧ ('\n' : Char) ∉ p.2)
    (htail : o ∉ tail) :
    surroundingPass o c st (spanJoin o c parts tail) = spanOut o c st parts tail := by
  induction parts with
  | nil =>
    simp only [spanJoin, spanOut, List.map_nil, List.flatten_nil, List.nil_append]
    exact surroundingPass_id o c st tail htail
  | cons p ps ih =>
    obtain ⟨hp1, hp2, hp3, hp4⟩ := hparts p (List.mem_cons_self p ps)
    have hrest := ih (fun q hq => hparts q (List.mem_cons_of_mem p hq))
    simp only [spanJoin, spanOut, List.map_cons, List.flatten_cons, List.append_assoc,
      List.cons_append, List.singleton_append] at hrest ⊢
    rw [surroundingPass_append_gap o c st p.1 _ hp1]
    congr 1
    rw [surroundingPass_cons_match o c st _ p.2.length
      (scanClose_spec c p.2 _ hp2 hp3 hp4)]
    rw [take_append_cons, drop_append_cons]
    simp only [List.nil_append]
    rw [hrest]
    simp

/-- C2: for every delimiter rule of the renderer and every input made of
balanced, unescaped spans of that delimiter kind, the delimiter pass
styles exactly the opening and closing delimiter characters with the
delimiter's style and opens each interior with the neutral style, and the
rewritten interior contains no reset marker pointing at the
document-default color: every pass-1 reset marker inside a span is
rewritten to the span's neutral color. -/
theorem c2_delimiter_pass_spans (o c : Char) (style : List Char)
    (hrule : (o, c, style) ∈ surroundingRules)
    (parts : List (List Char × List Char)) (tail : List Char)
    (hparts : ∀ p ∈ parts, o ∉ p.1 ∧ c ∉ p.2 ∧ ('\\' : Char) ∉ p.2 ∧ ('\n' : Char) ∉ p.2)
    (htail : o ∉ tail) :
    surroundingPass o c style (spanJoin o c parts tail) = spanOut o c style parts tail ∧
    ∀ p ∈ parts, occurs escReset1 (rewriteResets p.2) = false :=
  ⟨surroundingPass_spans o c style parts tail hparts htail,
   fun p _ => rewriteResets_no_reset1 p.2⟩

/-- Witness for C2: a double-quote span whose interior contains a pass-1
reset marker. -/
theorem c2_delimiter_pass_spans_witness :
    (('"', '"', esc132) ∈ surroundingRules) ∧
    surroundingPass '"' '"' esc132
        (spanJoin '"' '"' [(['a'], escReset1 ++ ['b'])] ['t']) =
      spanOut '"' '"' esc132 [(['a'], escReset1 ++ ['b'])] ['t'] ∧
    occurs escReset1 (rewriteResets (escReset1 ++ ['b'])) = false := by
  have h := c2_delimiter_pass_spans '"' '"' esc132 (by decide)
    [(['a'], escReset1 ++ ['b'])] ['t'] (by decide) (by decide)
  exact ⟨by decide, h.1, h.2 (['a'], escReset1 ++ ['b']) (by decide)⟩

/-! ## Escaped delimiters -/

/-- No character of the first escape class is a backslash. -/
theorem sqEscapeChars_no_bs : ∀ d ∈ sqEscapeChars, d ≠ '\\' := by decide

/-- No character of the second escape class is a backslash. -/
theorem rdEscapeChars_no_bs : ∀ d ∈ rdEscapeChars, d ≠ '\\' := by decide

/-- The two escape classes are disjoint. -/
theorem rd_not_sq : ∀ d ∈ rdEscapeChars, d ∉ sqEscapeChars := by decide

/-- Equation: the first escape-unwrapping rule on two or more characters. -/
theorem surEscape1_cons_cons (x d : Char) (rest : List Char) :
    surEscape1 (x :: d :: rest) =
      if x = '\\' then
        if d ∈ sqEscapeChars then esc132 ++ d :: escReset1 ++ surEscape1 rest
        else '\\' :: surEscape1 (d :: rest)
      else x :: surEscape1 (d :: rest) := by
  rw [surEscape1.eq_def]

/-- Equation: the second escape-unwrapping rule on two or more characters. -/
theorem surEscape2_cons_cons (x d : Char) (rest : List Char) :
    surEscape2 (x :: d :: rest) =
      if x = '\\' then
        if d ∈ rdEscapeChars then esc032 ++ d :: escReset1 ++ surEscape2 rest
        else '\\' :: surEscape2 (d :: rest)
      else x :: surEscape2 (d :: rest) := by
  rw [surEscape2.eq_def]

/-- A non-backslash head is copied by the first unwrapping rule. -/
theorem surEscape1_cons_ne (x : Char) (xs : List Char) (h : x ≠ '\\') :
    surEscape1 (x :: xs) = x :: surEscape1 xs := by
  cases xs with
  | nil => rfl
  | cons d rest => rw [surEscape1_cons_cons, if_neg h]

/-- A non-backslash head is copied by the second unwrapping rule. -/
theorem surEscape2_cons_ne (x : Char) (xs : List Char) (h : x ≠ '\\') :
    surEscape2 (x :: xs) = x :: surEscape2 xs := by
  cases xs with
  | nil => rfl
  | cons d rest => rw [surEscape2_cons_cons, if_neg h]

/-- The first unwrapping rule replaces an escaped class character. -/
theorem surEscape1_bs (d : Char) (rest : List Char) (h : d ∈ sqEscapeChars) :
    surEscape1 ('\\' :: d :: rest) = esc132 ++ d :: escReset1 ++ surEscape1 rest := by
  rw [surEscape1_cons_cons, if_pos rfl, if_pos h]

/-- The first unwrapping rule skips an escaped out-of-class character. -/
theorem surEscape1_bs_ne (d : Char) (rest : List Char) (h : d ∉ sqEscapeChars) :
    surEscape1 ('\\' :: d :: rest) = '\\' :: surEscape1 (d :: rest) := by
  rw [surEscape1_cons_cons, if_pos rfl, if_neg h]

/-- The second unwrapping rule replaces an escaped class character. -/
theorem surEscape2_bs (d : Char) (rest : List Char) (h : d ∈ rdEscapeChars) :
    surEscape2 ('\\' :: d :: rest) = esc032 ++ d :: escReset1 ++ surEscape2 rest := by
  rw [surEscape2_cons_cons, if_pos rfl, if_pos h]

/-- The first unwrapping rule copies a backslash-free prefix. -/
theorem surEscape1_append_nobs (t r : List Char) (ht : ('\\' : Char) ∉ t) :
    surEscape1 (t ++ r) = t ++ surEscape1 r := by
  induction t with
  | nil => simp
  | cons x xs ih =>
    simp only [List.mem_cons, not_or] at ht
    rw [List.cons_append, surEscape1_cons_ne x _ (fun h => ht.1 h.symm), ih ht.2]
    rfl

/-- The second unwrapping rule copies a backslash-free prefix. -/
theorem surEscape2_append_nobs (t r : List Char) (ht : ('\\' : Char) ∉ t) :
    surEscape2 (t ++ r) = t ++ surEscape2 r := by
  induction t with
  | nil => simp
  | cons x xs ih =>
    simp only [List.mem_cons, not_or] at ht
    rw [List.cons_append, surEscape2_cons_ne x _ (fun h => ht.1 h.symm), ih ht.2]
    rfl

/-- The first unwrapping rule is the identity on backslash-free text. -/
theorem surEscape1_id (s : List Char) (hs : ('\\' : Char) ∉ s) : surEscape1 s = s := by
  have h := surEscape1_append_nobs s [] hs
  rw [List.append_nil] at h
  rw [h, show surEscape1 [] = [] from rfl, List.append_nil]

/-- The second unwrapping rule is the identity on backslash-free text. -/
theorem surEscape2_id (s : List Char) (hs : ('\\' : Char) ∉ s) : surEscape2 s = s := by
  have h := surEscape2_append_nobs s [] hs
  rw [List.append_nil] at h
  rw [h, show surEscape2 [] = [] from rfl, List.append_nil]

/-- The span scanner fails when the only closer is escaped: the lazy body
consumes the backslash together with the closer, and no closer follows. -/
theorem scanClose_escaped (c : Char) (m post : List Char)
    (hcb : c ≠ '\\') (hcn : c ≠ '\n')
    (hc : c ∉ m) (hb : ('\\' : Char) ∉ m) (hn : ('\n' : Char) ∉ m) (hcp : c ∉ post) :
    scanClose c (m ++ '\\' :: c :: post) = none := by
  induction m with
  | nil =>
    rw [List.nil_append, scanClose.eq_def]
    dsimp only
    rw [if_neg (fun h => hcb h.symm), if_neg (by decide : ¬('\\' : Char) = '\n'),
      if_pos rfl]
    try dsimp only
    rw [if_neg hcn, scanClose_none c post hcp]
    rfl
  | cons x xs ih =>
    simp only [List.mem_cons, not_or] at hc hb hn
    rw [List.cons_append, scanClose.eq_def]
    dsimp only
    rw [if_neg (fun h => hc.1 h.symm), if_neg (fun h => hn.1 h.symm),
      if_neg (fun h => hb.1 h.symm), ih hc.2 hb.2 hn.2]
    rfl

/-- A span whose closing delimiter is escaped (and not followed by
another closer) is not treated as a span: the pass copies the text
unchanged, even though the opener is itself escaped. -/
theorem surroundingPass_escaped_closer (o c : Char) (style : List Char)
    (hob : o ≠ '\\') (hcb : c ≠ '\\') (hcn : c ≠ '\n')
    (pre m post : List Char)
    (hpre : o ∉ pre) (hom : o ∉ m) (hcm : c ∉ m) (hbm : ('\\' : Char) ∉ m)
    (hnm : ('\n' : Char) ∉ m) (hop : o ∉ post) (hcp : c ∉ post) :
    surroundingPass o c style (pre ++ '\\' :: o :: (m ++ '\\' :: c :: post)) =
      pre ++ '\\' :: o :: (m ++ '\\' :: c :: post) := by
  rw [surroundingPass_append_gap o c style pre _ hpre]
  congr 1
  rw [surroundingPass_cons_ne o c style '\\' _ (fun h => hob h.symm)]
  congr 1
  rw [surroundingPass_cons_nomatch o c style _
    (scanClose_escaped c m post hcb hcn hcm hbm hnm hcp)]
  congr 1
  rw [surroundingPass_append_gap o c style m _ hom]
  congr 1
  rw [surroundingPass_cons_ne o c style '\\' _ (fun h => hob h.symm)]
  congr 1
  by_cases hco : c = o
  · cases hco
    rw [surroundingPass_cons_nomatch _ _ style post (scanClose_none _ post hcp)]
    congr 1
    exact surroundingPass_id _ _ style post hop
  · rw [surroundingPass_cons_ne o c style c _ hco]
    congr 1
    exact surroundingPass_id o c style post hop

/-- The two unwrapping rules together replace an escaped first-class
character by its styled bare form. -/
theorem surEscape_unwrap_sq (d : Char) (pre post : List Char)
    (hd : d ∈ sqEscapeChars) (hpre : ('\\' : Char) ∉ pre) (hpost : ('\\' : Char) ∉ post) :
    surEscape2 (surEscape1 (pre ++ '\\' :: d :: post)) =
      pre ++ esc132 ++ d :: escReset1 ++ post := by
  rw [surEscape1_append_nobs pre _ hpre, surEscape1_bs d post hd, surEscape1_id post hpost]
  have hdne : ('\\' : Char) ≠ d := fun h => (sqEscapeChars_no_bs d hd) h.symm
  have hno : ('\\' : Char) ∉ pre ++ (esc132 ++ d :: escReset1 ++ post) := by
    simp [List.mem_append, List.mem_cons, hpre, hpost, hdne, esc132, escReset1]
  rw [surEscape2_id _ hno]
  simp [List.append_assoc]

/-- The two unwrapping rules together replace an escaped second-class
character by its styled bare form. -/
theorem surEscape_unwrap_rd (d : Char) (pre post : List Char)
    (hd : d ∈ rdEscapeChars) (hpre : ('\\' : Char) ∉ pre) (hpost : ('\\' : Char) ∉ post) :
    surEscape2 (surEscape1 (pre ++ '\\' :: d :: post)) =
      pre ++ esc032 ++ d :: escReset1 ++ post := by
  have hdbs : d ≠ '\\' := rdEscapeChars_no_bs d hd
  rw [surEscape1_append_nobs pre _ hpre, surEscape1_bs_ne d post (rd_not_sq d hd),
    surEscape1_cons_ne d post hdbs, surEscape1_id post hpost,
    surEscape2_append_nobs pre _ hpre, surEscape2_bs d post hd, surEscape2_id post hpost]
  simp [List.append_assoc]

/-- C5 amended: an escaped closing delimiter is not treated as closing, so
a span whose closer is escaped — such as `\[x\]` — produces no span and is
left for the unwrapping pass; the unwrapping pass removes the backslash
and styles the literal character with its class's style (the
square/quote/angle style for `[ ] " < >`, the round style for `( ) '`).
An escaped opening delimiter alone, however, does not suppress a span
(see the counterexample). -/
theorem c5_escape_handling :
    (∀ o c : Char, ∀ style : List Char, (o, c, style) ∈ surroundingRules →
      ∀ pre m post : List Char, o ∉ pre → o ∉ m → c ∉ m → ('\\' : Char) ∉ m →
        ('\n' : Char) ∉ m → o ∉ post → c ∉ post →
        surroundingPass o c style (pre ++ '\\' :: o :: (m ++ '\\' :: c :: post)) =
          pre ++ '\\' :: o :: (m ++ '\\' :: c :: post)) ∧
    (∀ d : Char, ∀ pre post : List Char, d ∈ sqEscapeChars → ('\\' : Char) ∉ pre →
      ('\\' : Char) ∉ post →
      surEscape2 (surEscape1 (pre ++ '\\' :: d :: post)) =
        pre ++ esc132 ++ d :: escReset1 ++ post) ∧
    (∀ d : Char, ∀ pre post : List Char, d ∈ rdEscapeChars → ('\\' : Char) ∉ pre →
      ('\\' : Char) ∉ post →
      surEscape2 (surEscape1 (pre ++ '\\' :: d :: post)) =
        pre ++ esc032 ++ d :: escReset1 ++ post) := by
  refine ⟨?_, ?_, ?_⟩
  · intro o c style hrule pre m post h1 h2 h3 h4 h5 h6 h7
    have hfacts : o ≠ '\\' ∧ c ≠ '\\' ∧ c ≠ '\n' := by
      simp only [surroundingRules, List.mem_cons, List.not_mem_nil, or_false,
        Prod.mk.injEq] at hrule
      rcases hrule with ⟨rfl, rfl, rfl⟩ | ⟨rfl, rfl, rfl⟩ | ⟨rfl, rfl, rfl⟩ |
        ⟨rfl, rfl, rfl⟩ | ⟨rfl, rfl, rfl⟩ <;> exact ⟨by decide, by decide, by decide⟩
    exact surroundingPass_escaped_closer o c style hfacts.1 hfacts.2.1 hfacts.2.2
      pre m post h1 h2 h3 h4 h5 h6 h7
  · exact fun d pre post hd hpre hpost => surEscape_unwrap_sq d pre post hd hpre hpost
  · exact fun d pre post hd hpre hpost => surEscape_unwrap_rd d pre post hd hpre hpost

/-- Witness for C5: the square pass leaves `\[x\]` unchanged, and the
unwrapping passes style the escaped bracket and escaped parenthesis. -/
theorem c5_escape_handling_witness :
    (('[', ']', esc132) ∈ surroundingRules) ∧
    surroundingPass '[' ']' esc132 ("\\[x\\]".toList) = "\\[x\\]".toList ∧
    surEscape2 (surEscape1 ("\\[x".toList)) = esc132 ++ '[' :: escReset1 ++ "x".toList ∧
    surEscape2 (surEscape1 ("\\(x".toList)) = esc032 ++ '(' :: escReset1 ++ "x".toList := by
  refine ⟨by decide, ?_, ?_, ?_⟩
  · have h := (c5_escape_handling).1 '[' ']' esc132 (by decide) [] ['x'] []
      (by decide) (by decide) (by decide) (by decide) (by decide) (by decide) (by decide)
    simpa using h
  · have h := (c5_escape_handling).2.1 '[' [] ("x".toList) (by decide) (by decide)
      (by decide)
    simpa using h
  · have h := (c5_escape_handling).2.2 '(' [] ("x".toList) (by decide) (by decide)
      (by decide)
    simpa using h

/-- C5 counterexample: the escaped opening bracket of `\[x]` is
nevertheless treated as opening a span — the span pattern leftmost-matches
at the bracket with no regard for the preceding backslash.  The rendered
output styles the escaped `[` as a span opener (delimiter style before it,
neutral color after it), leaves the backslash in place, and differs from
the unchanged input the claim requires. -/
theorem c5_escaped_opener_cex :
    color_str_escape "\\[x]" =
      String.mk ('\\' :: (esc132 ++ '[' :: (escReset0 ++ 'x' :: (esc132 ++
        ']' :: escReset1)))) ∧
    color_str_escape "\\[x]" ≠ "\\[x]" := by
  constructor
  · show String.mk (color_str_escape_core ("\\[x]".toList)) = _
    have h : color_str_escape_core ("\\[x]".toList) =
        '\\' :: (esc132 ++ '[' :: (escReset0 ++ 'x' :: (esc132 ++ ']' :: escReset1))) := by
      simp [color_str_escape_core, charClassPass, arrowPass, matchArrow, surroundingPasses,
        surroundingRules, surroundingPass, scanClose, rewriteResets, surEscape1, surEscape2,
        esc132, esc032, esc131, esc135, esc136, escReset0, escReset1, sqEscapeChars,
        rdEscapeChars]
    rw [h]
  · intro h
    have h2 : color_str_escape_core ("\\[x]".toList) = "\\[x]".toList := by
      have := congrArg String.toList h
      simpa [color_str_escape] using this
    have h3 : color_str_escape_core ("\\[x]".toList) =
        '\\' :: (esc132 ++ '[' :: (escReset0 ++ 'x' :: (esc132 ++ ']' :: escReset1))) := by
      simp [color_str_escape_core, charClassPass, arrowPass, matchArrow, surroundingPasses,
        surroundingRules, surroundingPass, scanClose, rewriteResets, surEscape1, surEscape2,
        esc132, esc032, esc131, esc135, esc136, escReset0, escReset1, sqEscapeChars,
        rdEscapeChars]
    rw [h2] at h3
    exact absurd h3 (by decide)
